import Mathlib

/-!
# A shallow embedding of the `raiap-test` signed-chain core

This file embeds, in Lean, the data model and the operations of the Rust sources
`src/identity.rs`, `src/structs/stream.rs` and `src/structs/anchor.rs`, and proves the
stated properties of that code.

Modelling conventions:

* Ed25519 keypairs are abstract: a keypair is identified with a natural number and its
  public key is the same number (key generation, randomness and the byte-level primitives
  are external collaborators of the code).
* Signing is deterministic (as Ed25519 is) and is modelled symbolically: the signature
  produced by `keypair.sign(data)` is the term `Sig.signed keypair data`, and
  `key.verify(data, sig)` holds exactly when `sig = Sig.signed key data`.  Arbitrary
  byte blobs that are not valid signatures of anything are `Sig.forged n`.
* The byte strings produced by the private `data(..)` serializers (bincode concatenation
  of the listed fields) are modelled by the inductive `SigData`, one constructor per
  serializer, carrying the serialized fields.  `Anchor::data` and `Stream::asi_data`
  serialize the same field list `(udi, r)` and therefore share the constructor
  `SigData.asiData`.
* The strings produced by the hash helpers (`commit`, `asi`, `al`: base64 of a SHA-256
  digest) are modelled by the inductive `Str`, with `Str.raw` embedding ordinary strings;
  SHA-256 is treated as injective and free of collisions with ordinary strings.
* `BTreeMap<String, TLGroup>` is modelled as an association list (`GroupMap`) with
  replace-on-duplicate insertion; `HashMap<String, Vec<Registry>>` as an association
  list with `dbGet`/`dbSet`.  Only lookup and pointwise update are used by the code.
* Fallible Rust methods return `Except String`; methods that mutate `&mut self` are
  state-passing: they return the result together with the post-state.  The two
  `unwrap()` calls on values the code documents as always present (`cards.last()`,
  `reg.last()`) are modelled as distinguished `"unreachable: .."` errors.
-/

namespace Raiap

inductive TLType where
  | MASTER
  | SLAVE
deriving DecidableEq, Repr

inductive OType where
  | SET
  | DEL
deriving DecidableEq, Repr

/-- `Record { oper, info }` from `stream.rs`. -/
structure Record where
  oper : OType
  info : List Nat
deriving DecidableEq, Repr

mutual

/-- A symbolic Ed25519 signature: either the (deterministic) signature of `data` under a
keypair, or an arbitrary byte blob that is nobody's signature. -/
inductive Sig where
  | signed : Nat → SigData → Sig
  | forged : Nat → Sig
deriving DecidableEq

/-- The byte stream fed to sign/verify: one constructor per private `data(..)` serializer
in the Rust sources, carrying the serialized fields in order.  `asiData` is shared by
`Anchor::data` and `Stream::asi_data`, which serialize the same `(udi, r)` field list. -/
inductive SigData where
  | cardData : Bool → List Nat → GroupMap → SigData
  | cancelData : Bool → Sig → SigData
  | renewData : Str → Sig → SigData
  | registryData : Str → Str → OType → List Nat → Sig → SigData
  | streamData : Str → GroupMap → Record → OptExtRenew → SigData
  | asiData : Str → Str → SigData
  | blockData : Record → Sig → SigData
deriving DecidableEq

/-- Strings as used by the code: ordinary strings, and the base64/SHA-256 images produced
by `commit`, `asi` and `al` (modelled injectively). -/
inductive Str where
  | raw : String → Str
  | commitS : Nat → Str
  | asiS : Nat → Sig → Str
  | alS : Sig → Str
deriving DecidableEq

/-- `BTreeMap<String, TLGroup>` as an association list. -/
inductive GroupMap where
  | nil : GroupMap
  | cons : Str → TLGroup → GroupMap → GroupMap
deriving DecidableEq

/-- `TLGroup { typ, commit }` from `identity.rs`. -/
inductive TLGroup where
  | mk : TLType → Str → TLGroup
deriving DecidableEq

/-- `Renew { commit, prev, sig, key: Option<PublicKey> }` from `identity.rs`. -/
inductive Renew where
  | mk : Str → Sig → Sig → Option Nat → Renew
deriving DecidableEq

/-- `ExtRenew { renew, key }` from `stream.rs`. -/
inductive ExtRenew where
  | mk : Renew → Nat → ExtRenew
deriving DecidableEq

/-- `Option<ExtRenew>`, unfolded so it may occur inside `SigData`. -/
inductive OptExtRenew where
  | noneE : OptExtRenew
  | someE : ExtRenew → OptExtRenew
deriving DecidableEq

end

def TLGroup.typ : TLGroup → TLType
  | .mk t _ => t

def TLGroup.commit : TLGroup → Str
  | .mk _ c => c

def Renew.commit : Renew → Str
  | .mk c _ _ _ => c

def Renew.prev : Renew → Sig
  | .mk _ p _ _ => p

def Renew.sig : Renew → Sig
  | .mk _ _ s _ => s

def Renew.key : Renew → Option Nat
  | .mk _ _ _ k => k

def ExtRenew.renew : ExtRenew → Renew
  | .mk r _ => r

def ExtRenew.key : ExtRenew → Nat
  | .mk _ k => k

/-- `commit(key) = base64(SHA256(key.bytes))` from `identity.rs`. -/
def commit (key : Nat) : Str := Str.commitS key

/-- `BTreeMap::get`. -/
def GroupMap.find : GroupMap → Str → Option TLGroup
  | .nil, _ => none
  | .cons k g rest, c => if k = c then some g else rest.find c

/-- `BTreeMap::insert` (replace the value under an existing key, otherwise add). -/
def GroupMap.insertG : GroupMap → Str → TLGroup → GroupMap
  | .nil, k, g => .cons k g .nil
  | .cons k0 g0 rest, k, g =>
      if k0 = k then .cons k g rest else .cons k0 g0 (rest.insertG k g)

/-- The map-building loop shared by `Card::new` and `Stream::new`:
`for gr in groups { g_map.insert(gr.commit.clone(), gr.clone()) }`. -/
def GroupMap.ofList (gs : List TLGroup) : GroupMap :=
  gs.foldl (fun m g => m.insertG g.commit g) GroupMap.nil

/-- `Renew::verify(&self, key)`. -/
def Renew.verify (r : Renew) (key : Nat) : Bool :=
  r.sig == Sig.signed key (SigData.renewData r.commit r.prev)

/-- `Card { is_genesis, info, groups, sig, key }` from `identity.rs`. -/
structure Card where
  is_genesis : Bool
  info : List Nat
  groups : GroupMap
  sig : Sig
  key : Nat
deriving DecidableEq

/-- `Card::verify`. -/
def Card.verify (c : Card) : Bool :=
  c.sig == Sig.signed c.key (SigData.cardData c.is_genesis c.info c.groups)

/-- `Cancel { is_close, prev, sig, key }` from `identity.rs`. -/
structure Cancel where
  is_close : Bool
  prev : Sig
  sig : Sig
  key : Nat
deriving DecidableEq

/-- `Cancel::verify`. -/
def Cancel.verify (c : Cancel) : Bool :=
  c.sig == Sig.signed c.key (SigData.cancelData c.is_close c.prev)

/-- `Registry { id, typ, oper, info, prev, sig, key_index }` from `identity.rs`. -/
structure Registry where
  id : Str
  typ : Str
  oper : OType
  info : List Nat
  prev : Sig
  sig : Sig
  key_index : Nat
deriving DecidableEq

/-- `Registry::verify(&self, key)`. -/
def Registry.verify (r : Registry) (key : Nat) : Bool :=
  r.sig == Sig.signed key (SigData.registryData r.id r.typ r.oper r.info r.prev)

/-- `Evolve { cancel, renew }` from `identity.rs`. -/
structure Evolve where
  cancel : Option Cancel
  renew : Option Renew
deriving DecidableEq

/-- `Identity { udi, cards, evols, db, enabled }` from `identity.rs`;
the `HashMap` is an association list. -/
structure Identity where
  udi : Str
  cards : List Card
  evols : List Evolve
  db : List (Str × List Registry)
  enabled : Bool
deriving DecidableEq

/-- `HashMap::get` on the registry store. -/
def dbGet : List (Str × List Registry) → Str → Option (List Registry)
  | [], _ => none
  | kv :: rest, id => if kv.1 = id then some kv.2 else dbGet rest id

/-- Pointwise update of the registry store (`HashMap::insert`, and the in-place
`Vec::push` reached through `get_mut`). -/
def dbSet : List (Str × List Registry) → Str → List Registry → List (Str × List Registry)
  | [], id, regs => [(id, regs)]
  | kv :: rest, id, regs =>
      if kv.1 = id then (id, regs) :: rest else kv :: dbSet rest id regs

/-- `Identity::new(genesis)`. -/
def Identity.newI (genesis : Card) : Except String Identity :=
  if !genesis.verify then .error "Invalid genesis card!"
  else .ok { udi := commit genesis.key, cards := [genesis], evols := [], db := [],
             enabled := true }

/-- `Identity::prev`. -/
def Identity.prevSig (s : Identity) : Except String Sig :=
  if s.enabled then
    match s.cards.getLast? with
    | none => .error "unreachable: must always have a card"
    | some c => .ok c.sig
  else
    match s.evols.getLast? with
    | none => .error "Identity is disabled, must have evolutions!"
    | some current =>
      match current.renew with
      | some ev => .ok ev.sig
      | none =>
        match current.cancel with
        | some c => .ok c.sig
        | none => .error "Expected to find cancel!"

/-- `Identity::save(registry)`. -/
def Identity.saveR (s : Identity) (registry : Registry) : Except String Unit × Identity :=
  if !s.enabled then (.error "Identity is disabled!", s)
  else
    match s.cards.getLast? with
    | none => (.error "unreachable: must always have a card", s)
    | some card =>
      if s.cards.length - 1 ≠ registry.key_index then (.error "Invalid key index!", s)
      else if !(registry.verify card.key) then (.error "Invalid registry!", s)
      else
        match dbGet s.db registry.id with
        | none =>
          if card.sig ≠ registry.prev then (.error "Invalid chain!", s)
          else (.ok (), { s with db := dbSet s.db registry.id [registry] })
        | some reg =>
          match reg.getLast? with
          | none => (.error "unreachable: chain should always exist", s)
          | some current =>
            if current.sig ≠ registry.prev then (.error "Invalid chain!", s)
            else if registry.typ ≠ current.typ then (.error "Invalid chain (dif type)!", s)
            else (.ok (), { s with db := dbSet s.db registry.id (reg ++ [registry]) })

/-- `Identity::cancel(ev)`. -/
def Identity.cancelE (s : Identity) (ev : Cancel) : Except String Unit × Identity :=
  match s.cards.getLast? with
  | none => (.error "unreachable: must always have a card", s)
  | some card =>
    if !s.enabled then (.error "Evolve is already in progress!", s)
    else if card.sig ≠ ev.prev then (.error "Invalid chain!", s)
    else if !ev.verify then (.error "Invalid cancel!", s)
    else
      match card.groups.find (commit ev.key) with
      | none => (.error "No group found to evolve!", s)
      | some gr =>
        if ev.is_close ∧ gr.typ ≠ TLType.MASTER then
          (.error "Only master groups can close permanently!", s)
        else
          (.ok (), { s with enabled := false,
                            evols := s.evols ++ [{ cancel := some ev, renew := none }] })

/-- The `let (key, evol) = match self.enabled { .. }` block of `Identity::renew`,
factored out: its early `return Err(..)` statements become the `error` results. -/
def Identity.renewStep (s : Identity) (card : Card) (ev : Renew) :
    Except String (Nat × Evolve) :=
  if s.enabled then
    if card.sig ≠ ev.prev then .error "Invalid chain!"
    else
      match ev.key with
      | none => .error "Renew(cancel) must have a key!"
      | some key => .ok (key, { cancel := none, renew := some ev })
  else
    match s.evols.getLast? with
    | none => .error "Identity is disabled, must have evolutions!"
    | some current =>
      if current.cancel.isNone ∨ current.renew.isSome then
        .error "Identity in invalid state to perform a renew!"
      else
        match current.cancel with
        | none => .error "unreachable: cancel is present"
        | some cancel =>
          if cancel.is_close then .error "Identity closed permanently!"
          else if cancel.sig ≠ ev.prev then .error "Invalid chain!"
          else .ok (cancel.key, { cancel := some cancel, renew := some ev })

/-- `Identity::renew(ev)`. -/
def Identity.renewE (s : Identity) (ev : Renew) : Except String Unit × Identity :=
  match s.cards.getLast? with
  | none => (.error "unreachable: must always have a card", s)
  | some card =>
    match Identity.renewStep s card ev with
    | .error e => (.error e, s)
    | .ok (key, evol) =>
      if !(ev.verify key) then (.error "Invalid renew!", s)
      else
        match card.groups.find (commit key) with
        | none => (.error "No group found to evolve!", s)
        | some _ =>
          match evol.cancel with
          | none => (.ok (), { s with enabled := false, evols := s.evols ++ [evol] })
          | some _ =>
              (.ok (), { s with enabled := false,
                                evols := s.evols.set (s.evols.length - 1) evol })

/-- `Identity::evolve(card)`. -/
def Identity.evolveE (s : Identity) (card : Card) : Except String Unit × Identity :=
  if s.enabled then (.error "Cannot evolve an enabled identity!", s)
  else if card.is_genesis then (.error "Cannot evolve to a genesis card!", s)
  else
    match s.evols.getLast? with
    | none => (.error "Identity is disabled, must have evolutions!", s)
    | some current =>
      match current.renew with
      | none => (.error "A renew must exist to evolve!", s)
      | some renew =>
        if renew.commit ≠ commit card.key then (.error "The card key is not valid!", s)
        else if !card.verify then (.error "Invalid card!", s)
        else (.ok (), { s with enabled := true, cards := s.cards ++ [card] })

/-- `asi(key, sig) = base64(SHA256(key.bytes || sig.bytes))` from `stream.rs`. -/
def asiStr (key : Nat) (sig : Sig) : Str := Str.asiS key sig

/-- `al(sig) = base64(SHA256(sig.bytes))` from `anchor.rs`. -/
def alStr (sig : Sig) : Str := Str.alS sig

/-- `StreamBlock { record, prev, sig }` from `stream.rs`. -/
structure StreamBlock where
  record : Record
  prev : Sig
  sig : Sig
deriving DecidableEq

/-- `StreamBlock::verify(&self, key)`. -/
def StreamBlock.verify (b : StreamBlock) (key : Nat) : Bool :=
  b.sig == Sig.signed key (SigData.blockData b.record b.prev)

/-- `Stream { asi, groups, genesis, renew, sig, blocks }` from `stream.rs`. -/
structure Stream where
  asi : Str
  groups : GroupMap
  genesis : Record
  renew : OptExtRenew
  sig : Sig
  blocks : List StreamBlock
deriving DecidableEq

/-- `Stream::new(keypair, udi, r, groups, genesis, renew)`. -/
def Stream.newS (keypair : Nat) (udi r : Str) (groups : List TLGroup) (genesis : Record)
    (renew : OptExtRenew) : Stream :=
  let g_map := GroupMap.ofList groups
  let sigA := Sig.signed keypair (SigData.asiData udi r)
  let asi := asiStr keypair sigA
  let sig := Sig.signed keypair (SigData.streamData asi g_map genesis renew)
  { asi := asi, groups := g_map, genesis := genesis, renew := renew, sig := sig,
    blocks := [] }

/-- `Stream::prev`. -/
def Stream.prevS (s : Stream) : Sig :=
  match s.blocks.getLast? with
  | none => s.sig
  | some bl => bl.sig

/-- `Stream::save(block)`. -/
def Stream.saveB (s : Stream) (block : StreamBlock) : Except String Unit × Stream :=
  if block.prev ≠ s.prevS then (.error "Invalid stream chain!", s)
  else (.ok (), { s with blocks := s.blocks ++ [block] })

/-- `Stream::check_asi(udi, r, key, sig)`. -/
def Stream.check_asi (s : Stream) (udi r : Str) (key : Nat) (sig : Sig) : Bool :=
  if asiStr key sig ≠ s.asi then false
  else sig == Sig.signed key (SigData.asiData udi r)

/-- `Stream::verify(&self, key)` (genesis signature only). -/
def Stream.verify (s : Stream) (key : Nat) : Bool :=
  s.sig == Sig.signed key (SigData.streamData s.asi s.groups s.genesis s.renew)

/-- `Stream::verify_stream(key)`: the genesis signature and every block signature. -/
def Stream.verify_stream (s : Stream) (key : Nat) : Except String Unit :=
  if !(s.verify key) then .error "Invalid genesis signature!"
  else if !(s.blocks.all (fun bl => bl.verify key)) then .error "Invalid block signature!"
  else .ok ()

/-- `Chain { chain }` from `stream.rs`. -/
structure Chain where
  chain : List Stream
deriving DecidableEq

/-- `Chain::new(genesis)`. -/
def Chain.newC (genesis : Stream) : Chain := { chain := [genesis] }

/-- `Chain::save(stream)`. -/
def Chain.saveC (c : Chain) (stream : Stream) : Except String Unit × Chain :=
  match stream.renew with
  | .noneE => (.error "Stream requires a renew block!", c)
  | .someE srenew =>
    match c.chain.getLast? with
    | none => (.error "unreachable: chain is never empty", c)
    | some st =>
      match st.verify_stream srenew.key with
      | .error e => (.error e, c)
      | .ok _ =>
        match srenew.renew.key with
        | none => (.error "Renew block requires a master public key!", c)
        | some mkey =>
          if !(srenew.renew.verify mkey) then (.error "Invalid renew!", c)
          else if (st.groups.find (commit mkey)).isNone then
            (.error "No group found on previous stream!", c)
          else if srenew.renew.prev ≠ st.prevS then (.error "Invalid stream chain!", c)
          else (.ok (), { chain := c.chain ++ [stream] })

/-- The `if let Some(commit) = mcommit { .. }` group check of the `Chain::check` loop:
true when no commit requirement is pending or the required commit is a group of `st`. -/
def headGroupOk (mcommit : Option Str) (st : Stream) : Bool :=
  match mcommit with
  | none => true
  | some c => (st.groups.find c).isSome

/-- The `if let Some(prev) = prev { .. }` chain check of the `Chain::check` loop:
true when no tip requirement is pending or the required tip is `st`'s tip. -/
def headPrevOk (prev : Option Sig) (st : Stream) : Bool :=
  match prev with
  | none => true
  | some p => p == st.prevS

/-- The body of the `for st in self.chain.iter().rev()` loop of `Chain::check`, with the
loop state `(mcommit, prev, skey)` made explicit; the list argument is the chain already
reversed (newest stream first). -/
def checkLoop : List Stream → Option Str → Option Sig → Option Nat → Except String Unit
  | [], _, _, skey => if skey.isSome then .error "Chain with invalid end!" else .ok ()
  | st :: rest, mcommit, prev, skey =>
    match skey with
    | none => .error "Chain contains more streams without a stream key!"
    | some k =>
      let groupOk : Bool := headGroupOk mcommit st
      let prevOk : Bool := headPrevOk prev st
      if !groupOk then .error "No group found on previous stream!"
      else if !prevOk then .error "Invalid stream chain!"
      else
        match st.verify_stream k with
        | .error e => .error e
        | .ok _ =>
          match st.renew with
          | .noneE => checkLoop rest mcommit prev none
          | .someE ext =>
            match ext.renew.key with
            | none => .error "Renew block requires a master public key!"
            | some mkey =>
              if !(ext.renew.verify mkey) then .error "Invalid renew!"
              else checkLoop rest (some (commit mkey)) (some ext.renew.prev)
                     (some ext.key)

/-- `Chain::check(key)`. -/
def Chain.checkC (c : Chain) (key : Nat) : Except String Unit :=
  checkLoop c.chain.reverse none none (some key)

/-- `Anchor { r, sn, al }` from `anchor.rs`. -/
structure Anchor where
  r : Str
  sn : Nat
  al : Str
deriving DecidableEq

/-- `Anchor::new(keypair, udi, r, sn)`. -/
def Anchor.newA (keypair : Nat) (udi r : Str) (sn : Nat) : Anchor :=
  { r := r, sn := sn, al := alStr (Sig.signed keypair (SigData.asiData udi r)) }

/-- Modelled from the spec: `Anchor::al_signature(profile_sk, udi)` — "re-produces the
same signature, to be used by the stream holder as the linkage witness" (spec §4.4).
The method is called by the repository's tests and by `main`, but its body is not
present under `src/`.  Ed25519 signing is deterministic, so signing `encode(udi, self.r)`
with the profile key re-produces the signature that `Anchor::new` computed. -/
def Anchor.al_signature (a : Anchor) (keypair : Nat) (udi : Str) : Sig :=
  Sig.signed keypair (SigData.asiData udi a.r)

/-- One public mutating `Identity` operation, with its argument. -/
inductive IdOp where
  | saveOp (r : Registry)
  | cancelOp (ev : Cancel)
  | renewOp (ev : Renew)
  | evolveOp (card : Card)

/-- Apply one operation, keeping the post-state (the result is discarded). -/
def applyOp (s : Identity) (op : IdOp) : Identity :=
  match op with
  | .saveOp r => (Identity.saveR s r).2
  | .cancelOp ev => (Identity.cancelE s ev).2
  | .renewOp ev => (Identity.renewE s ev).2
  | .evolveOp card => (Identity.evolveE s card).2

/-- Apply a sequence of operations in order. -/
def applyOps (s : Identity) : List IdOp → Identity
  | [] => s
  | op :: rest => applyOps (applyOp s op) rest

/-- The identities reachable from `Identity::new` by any sequence of the public
operations (successful or rejected). -/
inductive Reachable : Identity → Prop where
  | genesis (g : Card) (s : Identity) : Identity.newI g = .ok s → Reachable s
  | saveStep (s : Identity) (r : Registry) : Reachable s → Reachable (Identity.saveR s r).2
  | cancelStep (s : Identity) (ev : Cancel) : Reachable s →
      Reachable (Identity.cancelE s ev).2
  | renewStep (s : Identity) (ev : Renew) : Reachable s →
      Reachable (Identity.renewE s ev).2
  | evolveStep (s : Identity) (card : Card) : Reachable s →
      Reachable (Identity.evolveE s card).2

/-- The structural invariant maintained by the identity lifecycle: there is always a
card; while enabled there is one more card than evolution entries and a completed last
entry; while disabled the evolution entries count the cards and an entry without a renew
holds a cancel. -/
def Inv (s : Identity) : Prop :=
  s.cards ≠ [] ∧
  (s.enabled = true → s.cards.length = s.evols.length + 1 ∧
    (∀ e, s.evols.getLast? = some e → e.renew.isSome = true)) ∧
  (s.enabled = false → s.evols ≠ [] ∧ s.cards.length = s.evols.length ∧
    (∀ e, s.evols.getLast? = some e → e.renew = none → e.cancel.isSome = true))

/-- Outcome analysis of `Identity::cancel`: either it rejects and returns the state
unchanged, or the identity was enabled and it appends a cancel-only evolution entry. -/
theorem cancelE_cases (s : Identity) (ev : Cancel) :
    ((Identity.cancelE s ev).2 = s ∧ ∃ e, (Identity.cancelE s ev).1 = .error e) ∨
    (s.enabled = true ∧ (Identity.cancelE s ev).1 = .ok () ∧
      (Identity.cancelE s ev).2 = { s with enabled := false, evols := s.evols ++ [{ cancel := some ev, renew := none }] }) := by
  unfold Identity.cancelE
  repeat' split
  all_goals
    first
      | exact Or.inl ⟨rfl, _, rfl⟩
      | (refine Or.inr ⟨?_, rfl, rfl⟩; simp_all)

/-- Outcome analysis of the key/evolution selection block of `Identity::renew`. -/
theorem renewStep_cases (s : Identity) (card : Card) (ev : Renew) :
    (∃ e, Identity.renewStep s card ev = .error e) ∨
    (s.enabled = true ∧ card.sig = ev.prev ∧
      ∃ key, ev.key = some key ∧
        Identity.renewStep s card ev = .ok (key, { cancel := none, renew := some ev })) ∨
    (s.enabled = false ∧
      ∃ current cancel, s.evols.getLast? = some current ∧ current.cancel = some cancel ∧
        current.renew = none ∧ cancel.is_close = false ∧ cancel.sig = ev.prev ∧
        Identity.renewStep s card ev =
          .ok (cancel.key, { cancel := some cancel, renew := some ev })) := by
  unfold Identity.renewStep
  repeat' split
  all_goals
    first
      | exact Or.inl ⟨_, rfl⟩
      | ((refine Or.inr (Or.inl ⟨?_, ?_, ?_⟩) <;> simp_all); done)
      | ((refine Or.inr (Or.inr ⟨?_, ?_⟩) <;> simp_all); done)

/-- Outcome analysis of `Identity::renew`: either it rejects and returns the state
unchanged, or (enabled) it appends a renew-only entry, or (disabled, pending cancel)
it replaces the last entry by cancel-plus-renew. -/
theorem renewE_cases (s : Identity) (ev : Renew) :
    ((Identity.renewE s ev).2 = s ∧ ∃ e, (Identity.renewE s ev).1 = .error e) ∨
    (s.enabled = true ∧ (Identity.renewE s ev).1 = .ok () ∧
      (∃ card key, s.cards.getLast? = some card ∧ card.sig = ev.prev ∧ ev.key = some key ∧
        ev.verify key = true ∧ (card.groups.find (commit key)).isSome = true) ∧
      (Identity.renewE s ev).2 = { s with enabled := false, evols := s.evols ++ [{ cancel := none, renew := some ev }] }) ∨
    (s.enabled = false ∧ (Identity.renewE s ev).1 = .ok () ∧
      (∃ current cancel, s.evols.getLast? = some current ∧ current.cancel = some cancel ∧
        current.renew = none ∧ cancel.is_close = false ∧ cancel.sig = ev.prev ∧
        ev.verify cancel.key = true ∧
        (Identity.renewE s ev).2 = { s with enabled := false, evols := s.evols.set (s.evols.length - 1) { cancel := some cancel, renew := some ev } })) := by
  unfold Identity.renewE
  cases hcard : s.cards.getLast? with
  | none => exact Or.inl ⟨rfl, _, rfl⟩
  | some card =>
    rcases renewStep_cases s card ev with ⟨e, hstep⟩ | ⟨he, hprev, key, hkey, hstep⟩ |
      ⟨he, current, cancel, hlast, hcancel, hrenew, hclose, hsig, hstep⟩
    · refine Or.inl ⟨?_, e, ?_⟩ <;> simp [hstep]
    · by_cases hv : ev.verify key = true
      · cases hg : card.groups.find (commit key) with
        | none => refine Or.inl ⟨?_, "No group found to evolve!", ?_⟩ <;> simp [hstep, hv, hg]
        | some gr =>
          refine Or.inr (Or.inl ⟨he, ?_, ⟨card, key, rfl, hprev, hkey, hv, ?_⟩, ?_⟩)
          · simp [hstep, hv, hg]
          · simp [hg]
          · simp [hstep, hv, hg]
      · simp only [Bool.not_eq_true] at hv
        refine Or.inl ⟨?_, "Invalid renew!", ?_⟩ <;> simp [hstep, hv]
    · by_cases hv : ev.verify cancel.key = true
      · cases hg : card.groups.find (commit cancel.key) with
        | none => refine Or.inl ⟨?_, "No group found to evolve!", ?_⟩ <;> simp [hstep, hv, hg]
        | some gr =>
          refine Or.inr (Or.inr ⟨he, ?_, current, cancel, hlast, hcancel, hrenew, hclose,
            hsig, hv, ?_⟩) <;> simp [hstep, hv, hg]
      · simp only [Bool.not_eq_true] at hv
        refine Or.inl ⟨?_, "Invalid renew!", ?_⟩ <;> simp [hstep, hv]

/-- Outcome analysis of `Identity::save`: either it rejects and returns the state
unchanged, or it appends the entry to its registry chain (creating the chain when
absent), leaving every other field alone. -/
theorem saveR_cases (s : Identity) (r : Registry) :
    ((Identity.saveR s r).2 = s ∧ ∃ e, (Identity.saveR s r).1 = .error e) ∨
    (s.enabled = true ∧ (Identity.saveR s r).1 = .ok () ∧
      ∃ card, s.cards.getLast? = some card ∧ s.cards.length - 1 = r.key_index ∧
        r.verify card.key = true ∧
        ((dbGet s.db r.id = none ∧ card.sig = r.prev ∧
           (Identity.saveR s r).2 = { s with db := dbSet s.db r.id [r] }) ∨
         (∃ reg current, dbGet s.db r.id = some reg ∧ reg.getLast? = some current ∧
           current.sig = r.prev ∧ r.typ = current.typ ∧
           (Identity.saveR s r).2 = { s with db := dbSet s.db r.id (reg ++ [r]) }))) := by
  unfold Identity.saveR
  repeat' split
  all_goals
    first
      | exact Or.inl ⟨rfl, _, rfl⟩
      | (refine Or.inr ⟨?_, rfl, ?_⟩ <;> simp_all)

/-- Outcome analysis of `Identity::evolve`: either it rejects and returns the state
unchanged, or the identity was disabled with a completed renew and it appends the card
and re-enables. -/
theorem evolveE_cases (s : Identity) (card : Card) :
    ((Identity.evolveE s card).2 = s ∧ ∃ e, (Identity.evolveE s card).1 = .error e) ∨
    (s.enabled = false ∧ card.is_genesis = false ∧
      (∃ current renew, s.evols.getLast? = some current ∧ current.renew = some renew ∧
        renew.commit = commit card.key) ∧
      card.verify = true ∧ (Identity.evolveE s card).1 = .ok () ∧
      (Identity.evolveE s card).2 = { s with enabled := true, cards := s.cards ++ [card] }) := by
  unfold Identity.evolveE
  repeat' split
  all_goals
    first
      | exact Or.inl ⟨rfl, _, rfl⟩
      | (refine Or.inr ⟨?_, ?_, ?_, ?_, rfl, rfl⟩ <;> simp_all)

theorem getLast?_set_last {α : Type} (l : List α) (a : α) (h : l ≠ []) :
    (l.set (l.length - 1) a).getLast? = some a := by
  rw [List.getLast?_eq_getElem?, List.length_set]
  rw [List.getElem?_set_self]
  have : 0 < l.length := List.length_pos.mpr h
  omega

theorem inv_newI (g : Card) (s : Identity) (h : Identity.newI g = .ok s) : Inv s := by
  unfold Identity.newI at h
  split at h
  · cases h
  · cases h
    simp [Inv]

theorem inv_saveR (s : Identity) (r : Registry) (h : Inv s) :
    Inv (Identity.saveR s r).2 := by
  rcases saveR_cases s r with ⟨h2, _⟩ | ⟨he, hok, card, hcard, hki, hv, hbr⟩
  · rw [h2]; exact h
  · rcases hbr with ⟨hdb, hsig, h2⟩ | ⟨reg, current, hdb, hlastr, hsig, htyp, h2⟩ <;>
      (rw [h2]; exact h)

theorem inv_cancelE (s : Identity) (ev : Cancel) (h : Inv s) :
    Inv (Identity.cancelE s ev).2 := by
  rcases cancelE_cases s ev with ⟨h2, _⟩ | ⟨he, hok, h2⟩
  · rw [h2]; exact h
  · rw [h2]
    obtain ⟨hc, hen, _⟩ := h
    have hlen := (hen he).1
    refine ⟨hc, by simp, ?_⟩
    intro _
    refine ⟨by simp, by simp [hlen], ?_⟩
    intro e hlast hre
    rw [List.getLast?_concat] at hlast
    cases hlast
    simp

theorem inv_renewE (s : Identity) (ev : Renew) (h : Inv s) :
    Inv (Identity.renewE s ev).2 := by
  rcases renewE_cases s ev with ⟨h2, _⟩ | ⟨he, hok, _, h2⟩ |
    ⟨he, hok, current, cancel, hlast, hcancel, hrenew, hclose, hsig, hv, h2⟩
  · rw [h2]; exact h
  · rw [h2]
    obtain ⟨hc, hen, _⟩ := h
    have hlen := (hen he).1
    refine ⟨hc, by simp, ?_⟩
    intro _
    refine ⟨by simp, by simp [hlen], ?_⟩
    intro e hlaste hre
    rw [List.getLast?_concat] at hlaste
    cases hlaste
    simp at hre
  · rw [h2]
    obtain ⟨hc, _, hdis⟩ := h
    obtain ⟨hne, hlen, _⟩ := hdis he
    refine ⟨hc, by simp, ?_⟩
    intro _
    refine ⟨by simpa using hne, by simpa using hlen, ?_⟩
    intro e hlaste hre
    rw [getLast?_set_last _ _ hne] at hlaste
    cases hlaste
    simp at hre

theorem inv_evolveE (s : Identity) (card : Card) (h : Inv s) :
    Inv (Identity.evolveE s card).2 := by
  rcases evolveE_cases s card with ⟨h2, _⟩ | ⟨he, hgen, ⟨current, renew, hlast, hre, hcm⟩,
    hv, hok, h2⟩
  · rw [h2]; exact h
  · rw [h2]
    obtain ⟨hc, _, hdis⟩ := h
    obtain ⟨hne, hlen, _⟩ := hdis he
    refine ⟨by simp, ?_, by simp⟩
    intro _
    refine ⟨by simp [hlen], ?_⟩
    intro e hlaste
    rw [hlast] at hlaste
    cases hlaste
    simp [hre]

/-- Every reachable identity satisfies the structural invariant `Inv`. -/
theorem reachable_inv (s : Identity) (h : Reachable s) : Inv s := by
  induction h with
  | genesis g s hg => exact inv_newI g s hg
  | saveStep s r _ ih => exact inv_saveR s r ih
  | cancelStep s ev _ ih => exact inv_cancelE s ev ih
  | renewStep s ev _ ih => exact inv_renewE s ev ih
  | evolveStep s card _ ih => exact inv_evolveE s card ih

/-- Outcome analysis of `Chain::save`. -/
theorem saveC_cases (c : Chain) (st : Stream) :
    ((Chain.saveC c st).2 = c ∧ ∃ e, (Chain.saveC c st).1 = .error e) ∨
    ((Chain.saveC c st).1 = .ok () ∧ (Chain.saveC c st).2 = { chain := c.chain ++ [st] }) := by
  unfold Chain.saveC
  repeat' split
  all_goals
    first
      | exact Or.inl ⟨rfl, _, rfl⟩
      | exact Or.inr ⟨rfl, rfl⟩

/-! Concrete fixtures, used by the witness and counterexample theorems.  Keypair `0` is
the identity keypair, keypair `1` the master-group keypair. -/

def masterGroup : TLGroup := TLGroup.mk TLType.MASTER (commit 1)

def genesisGroups : GroupMap := GroupMap.cons (commit 1) masterGroup GroupMap.nil

def genesisCard : Card :=
  { is_genesis := true, info := [], groups := genesisGroups,
    sig := Sig.signed 0 (SigData.cardData true [] genesisGroups), key := 0 }

def identity0 : Identity :=
  { udi := commit 0, cards := [genesisCard], evols := [], db := [], enabled := true }

def closeCancel : Cancel :=
  { is_close := true, prev := genesisCard.sig,
    sig := Sig.signed 1 (SigData.cancelData true genesisCard.sig), key := 1 }

def identityClosed : Identity := (Identity.cancelE identity0 closeCancel).2

def badCancel : Cancel :=
  { is_close := false, prev := Sig.forged 9, sig := Sig.forged 9, key := 1 }

def renewAttempt : Renew :=
  Renew.mk (commit 2) closeCancel.sig
    (Sig.signed 1 (SigData.renewData (commit 2) closeCancel.sig)) none

/-- Card used to refute claim C1: its signature verifies, but it is not a genesis
card (`is_genesis = false`). -/
def plainCard : Card :=
  { is_genesis := false, info := [], groups := GroupMap.nil,
    sig := Sig.signed 0 (SigData.cardData false [] GroupMap.nil), key := 0 }

/-- C1, counterexample: `Identity::new` accepts a card with `is_genesis = false` as long
as its signature verifies, so — contrary to the claim — it does not return an error on a
non-genesis card, and the resulting identity has `cards[0].is_genesis = false`. -/
theorem C1_counterexample :
    plainCard.verify = true ∧ plainCard.is_genesis = false ∧
    Identity.newI plainCard =
      .ok { udi := commit 0, cards := [plainCard], evols := [], db := [],
            enabled := true } ∧
    ([plainCard].head?.map Card.is_genesis) = some false :=
  ⟨rfl, rfl, rfl, rfl⟩

/-- C1 (amended): `Identity::new(genesis_card)` returns an Identity exactly when
`genesis_card.verify() = true` — `is_genesis` is not checked — and on success it sets
`udi = commit(genesis_card.key)`, `enabled = true` and `cards = [genesis_card]` (so
`cards[0].is_genesis` is whatever the supplied card carries). -/
theorem C1_amended_new_characterization (g : Card) :
    Identity.newI g =
      (if g.verify = true then
        .ok { udi := commit g.key, cards := [g], evols := [], db := [], enabled := true }
      else .error "Invalid genesis card!") := by
  rcases Bool.eq_false_or_eq_true g.verify with hv | hv <;> simp [Identity.newI, hv]

/-- Stream used to refute claim C2 (built by `Stream::new` under keypair `0`). -/
def plainStream : Stream :=
  Stream.newS 0 (Str.raw "udi-random") (Str.raw "r-random") []
    { oper := OType.SET, info := [] } OptExtRenew.noneE

/-- Block used to refute claim C2: its `prev` is the stream tip, but its signature is an
arbitrary blob that verifies under no key. -/
def forgedBlock : StreamBlock :=
  { record := { oper := OType.SET, info := [] }, prev := plainStream.sig,
    sig := Sig.forged 0 }

/-- C2, counterexample: `Stream::save` retains a block whose signature does not verify
under the stream's authoring key (keypair `0`): it checks only the `prev` link.  The
state is reached through the public operations `Stream::new` and `Stream::save` alone. -/
theorem C2_counterexample :
    (Stream.saveB plainStream forgedBlock).1 = .ok () ∧
    (Stream.saveB plainStream forgedBlock).2.blocks = [forgedBlock] ∧
    forgedBlock.verify 0 = false :=
  ⟨rfl, rfl, rfl⟩

/-- C2 (amended): `Stream::new` produces a stream whose genesis signature verifies under
the authoring key, but `Stream::save` retains a block if and only if `block.prev` equals
the stream's current tip — it performs no signature check, so a retained block's
signature need not verify; block signatures are checked only by
`verify_stream`/`Chain::check`. -/
theorem C2_amended_append_semantics :
    (∀ keypair udi r groups genesis renew,
      (Stream.newS keypair udi r groups genesis renew).verify keypair = true) ∧
    (∀ s b, Stream.saveB s b =
      if b.prev = s.prevS then (Except.ok (), { s with blocks := s.blocks ++ [b] })
      else (Except.error "Invalid stream chain!", s)) := by
  constructor
  · intro kp udi r gs gen rn
    simp [Stream.newS, Stream.verify]
  · intro s b
    unfold Stream.saveB
    by_cases hp : b.prev = s.prevS <;> simp [hp]

/-- C5: for any profile keypair, `udi`, `r` and `sn`, the signature over
`encode(udi, r)` that `Anchor::new` computes is re-produced by `al_signature`; feeding it
to `check_asi` on the stream built by `Stream::new` from the same data yields `true`,
and its SHA-256 hash (base64) equals the anchor's `al`. -/
theorem C5_anchor_stream_linkage (keypair : Nat) (udi r : Str) (groups : List TLGroup)
    (genesis : Record) (renew : OptExtRenew) (sn : Nat) :
    (Anchor.newA keypair udi r sn).al_signature keypair udi
        = Sig.signed keypair (SigData.asiData udi r) ∧
    (Stream.newS keypair udi r groups genesis renew).check_asi udi r keypair
        ((Anchor.newA keypair udi r sn).al_signature keypair udi) = true ∧
    alStr ((Anchor.newA keypair udi r sn).al_signature keypair udi)
        = (Anchor.newA keypair udi r sn).al := by
  refine ⟨rfl, ?_, rfl⟩
  simp [Stream.newS, Stream.check_asi, Anchor.al_signature, Anchor.newA, asiStr]

/-- C3: every rejected call of `cancel`, `renew`, `evolve`, `save` or `Chain::save`
leaves the state structurally equal to the pre-state. -/
theorem C3_reject_is_noop :
    (∀ s ev e, (Identity.cancelE s ev).1 = .error e → (Identity.cancelE s ev).2 = s) ∧
    (∀ s ev e, (Identity.renewE s ev).1 = .error e → (Identity.renewE s ev).2 = s) ∧
    (∀ s card e, (Identity.evolveE s card).1 = .error e → (Identity.evolveE s card).2 = s) ∧
    (∀ s r e, (Identity.saveR s r).1 = .error e → (Identity.saveR s r).2 = s) ∧
    (∀ c st e, (Chain.saveC c st).1 = .error e → (Chain.saveC c st).2 = c) := by
  refine ⟨?_, ?_, ?_, ?_, ?_⟩
  · intro s ev e h
    rcases cancelE_cases s ev with ⟨h2, _⟩ | ⟨_, hok, _⟩
    · exact h2
    · rw [hok] at h; cases h
  · intro s ev e h
    rcases renewE_cases s ev with ⟨h2, _⟩ | ⟨_, hok, _⟩ | ⟨_, hok, _⟩
    · exact h2
    · rw [hok] at h; cases h
    · rw [hok] at h; cases h
  · intro s card e h
    rcases evolveE_cases s card with ⟨h2, _⟩ | ⟨_, _, _, _, hok, _⟩
    · exact h2
    · rw [hok] at h; cases h
  · intro s r e h
    rcases saveR_cases s r with ⟨h2, _⟩ | ⟨_, hok, _⟩
    · exact h2
    · rw [hok] at h; cases h
  · intro c st e h
    rcases saveC_cases c st with ⟨h2, _⟩ | ⟨hok, _⟩
    · exact h2
    · rw [hok] at h; cases h

/-- Witness for C3: a concrete rejected `cancel` (broken `prev` link) leaves the
concrete identity unchanged. -/
theorem C3_witness : (Identity.cancelE identity0 badCancel).2 = identity0 :=
  C3_reject_is_noop.1 identity0 badCancel "Invalid chain!" rfl

/-- C4: on every identity reachable from `Identity::new` by any sequence of the public
operations, `enabled = true` iff `evols` is empty, or the last `evols` entry has `renew`
populated and `|cards| = |evols| + 1`. -/
theorem C4_enabled_iff (s : Identity) (h : Reachable s) :
    s.enabled = true ↔
      (s.evols = [] ∨ ∃ e, s.evols.getLast? = some e ∧ e.renew.isSome = true ∧
        s.cards.length = s.evols.length + 1) := by
  obtain ⟨hc, hen, hdis⟩ := reachable_inv s h
  constructor
  · intro he
    obtain ⟨hlen, hlast⟩ := hen he
    cases hev : s.evols.getLast? with
    | none => exact Or.inl (List.getLast?_eq_none_iff.mp hev)
    | some e => exact Or.inr ⟨e, rfl, hlast e hev, hlen⟩
  · intro hr
    by_contra hne
    have hf : s.enabled = false := by
      cases hb : s.enabled
      · rfl
      · exact absurd hb hne
    obtain ⟨hne2, hlen, _⟩ := hdis hf
    rcases hr with h1 | ⟨e, _, _, h3⟩
    · exact hne2 h1
    · omega

/-- Witness for C4: the freshly created identity is enabled and has no evolutions. -/
theorem C4_witness :
    identity0.enabled = true ↔
      (identity0.evols = [] ∨ ∃ e, identity0.evols.getLast? = some e ∧
        e.renew.isSome = true ∧ identity0.cards.length = identity0.evols.length + 1) :=
  C4_enabled_iff identity0 (Reachable.genesis genesisCard identity0 rfl)

/-- C9: on every reachable identity, `cards` is non-empty; when disabled, `evols` is
non-empty and its last entry holds a `cancel` whenever `renew` is absent; consequently
`card()` (the `cards.last().unwrap()`) never panics and `prev()` never reaches its error
branches. -/
theorem C9_no_panic (s : Identity) (h : Reachable s) :
    s.cards ≠ [] ∧ (s.cards.getLast?).isSome = true ∧
    (s.enabled = false → s.evols ≠ [] ∧
      ∀ e, s.evols.getLast? = some e → e.renew = none → e.cancel ≠ none) ∧
    (Identity.prevSig s).isOk = true := by
  obtain ⟨hc, hen, hdis⟩ := reachable_inv s h
  refine ⟨hc, List.getLast?_isSome.mpr hc, ?_, ?_⟩
  · intro hf
    obtain ⟨hne, _, hlast⟩ := hdis hf
    refine ⟨hne, fun e he hr => ?_⟩
    have := hlast e he hr
    exact Option.isSome_iff_ne_none.mp this
  · unfold Identity.prevSig
    cases hb : s.enabled
    · obtain ⟨hne, _, hlast⟩ := hdis hb
      cases hev : s.evols.getLast? with
      | none => exact absurd (List.getLast?_eq_none_iff.mp hev) hne
      | some current =>
        cases hr : current.renew with
        | some ev => simp only [hr]; rfl
        | none =>
          have hcan := hlast current hev hr
          cases hc2 : current.cancel with
          | none => rw [hc2] at hcan; cases hcan
          | some c => simp only [hr, hc2]; rfl
    · cases hev : s.cards.getLast? with
      | none =>
        have := List.getLast?_isSome.mpr hc
        rw [hev] at this; cases this
      | some c => simp only [hev]; rfl

/-- Witness for C9: the freshly created identity satisfies all four safety clauses. -/
theorem C9_witness :
    identity0.cards ≠ [] ∧ (identity0.cards.getLast?).isSome = true ∧
    (identity0.enabled = false → identity0.evols ≠ [] ∧
      ∀ e, identity0.evols.getLast? = some e → e.renew = none → e.cancel ≠ none) ∧
    (Identity.prevSig identity0).isOk = true :=
  C9_no_panic identity0 (Reachable.genesis genesisCard identity0 rfl)

/-- C10: `save` mutates only the registry store; `cancel`, `renew` and `evolve` never
touch `udi` or the store, never change an already-appended card, never change an `evols`
entry other than the last, and when `renew` replaces the last entry it preserves the
stored cancel. -/
theorem C10_frame :
    (∀ s r, (Identity.saveR s r).2.udi = s.udi ∧ (Identity.saveR s r).2.cards = s.cards ∧
      (Identity.saveR s r).2.evols = s.evols ∧ (Identity.saveR s r).2.enabled = s.enabled) ∧
    (∀ s ev, (Identity.cancelE s ev).2.udi = s.udi ∧ (Identity.cancelE s ev).2.db = s.db ∧
      (Identity.cancelE s ev).2.cards = s.cards ∧
      (Identity.cancelE s ev).2.evols.take s.evols.length = s.evols) ∧
    (∀ s ev, (Identity.renewE s ev).2.udi = s.udi ∧ (Identity.renewE s ev).2.db = s.db ∧
      (Identity.renewE s ev).2.cards = s.cards ∧
      (∀ i, i + 1 < s.evols.length → (Identity.renewE s ev).2.evols[i]? = s.evols[i]?) ∧
      ((Identity.renewE s ev).1 = .ok () →
        (Identity.renewE s ev).2.evols.length = s.evols.length →
        ((Identity.renewE s ev).2.evols.getLast?).map Evolve.cancel =
          (s.evols.getLast?).map Evolve.cancel)) ∧
    (∀ s card, (Identity.evolveE s card).2.udi = s.udi ∧
      (Identity.evolveE s card).2.db = s.db ∧
      (Identity.evolveE s card).2.evols = s.evols ∧
      (Identity.evolveE s card).2.cards.take s.cards.length = s.cards) := by
  refine ⟨?_, ?_, ?_, ?_⟩
  · intro s r
    rcases saveR_cases s r with ⟨h2, _⟩ | ⟨_, _, _, _, _, _, hbr⟩
    · rw [h2]; exact ⟨rfl, rfl, rfl, rfl⟩
    · rcases hbr with ⟨_, _, h2⟩ | ⟨_, _, _, _, _, _, h2⟩ <;>
        (rw [h2]; exact ⟨rfl, rfl, rfl, rfl⟩)
  · intro s ev
    rcases cancelE_cases s ev with ⟨h2, _⟩ | ⟨_, _, h2⟩
    · rw [h2]; exact ⟨rfl, rfl, rfl, List.take_length _⟩
    · rw [h2]; exact ⟨rfl, rfl, rfl, List.take_left _ _⟩
  · intro s ev
    rcases renewE_cases s ev with ⟨h2, _⟩ | ⟨_, _, _, h2⟩ |
      ⟨_, _, current, cancel, hl, hcan, _, _, _, _, h2⟩
    · rw [h2]
      exact ⟨rfl, rfl, rfl, fun i _ => rfl, fun _ _ => rfl⟩
    · rw [h2]
      refine ⟨rfl, rfl, rfl, ?_, ?_⟩
      · intro i hi
        exact List.getElem?_append_left (by omega)
      · intro _ hlen
        simp at hlen
    · rw [h2]
      have hne : s.evols ≠ [] := by
        intro hcon; rw [hcon] at hl; cases hl
      refine ⟨rfl, rfl, rfl, ?_, ?_⟩
      · intro i hi
        exact List.getElem?_set_ne (by omega)
      · intro _ _
        rw [getLast?_set_last _ _ hne, hl]
        simp [hcan]
  · intro s card
    rcases evolveE_cases s card with ⟨h2, _⟩ | ⟨_, _, _, _, _, h2⟩
    · rw [h2]; exact ⟨rfl, rfl, rfl, List.take_length _⟩
    · rw [h2]; exact ⟨rfl, rfl, rfl, List.take_left _ _⟩

def frameIdentity : Identity :=
  { udi := commit 0, cards := [genesisCard],
    evols := [{ cancel := none, renew := none }, { cancel := none, renew := none }],
    db := [], enabled := true }

/-- Witness for C10: a concrete `renew` call leaves the first of two `evols` entries
unchanged. -/
theorem C10_witness :
    (Identity.renewE frameIdentity renewAttempt).2.evols[0]? = frameIdentity.evols[0]? :=
  (C10_frame.2.2.1 frameIdentity renewAttempt).2.2.2.1 0 (by decide)

/-- A permanently closed identity: disabled, and the last evolution entry is a closing
cancel that has not been renewed. -/
def Closed (s : Identity) : Prop :=
  s.enabled = false ∧ ∃ c, s.evols.getLast? = some { cancel := some c, renew := none } ∧
    c.is_close = true

theorem closed_renewE (s : Identity) (ev : Renew) (hc : s.cards ≠ [])
    (hf : s.enabled = false) (c : Cancel)
    (hlast : s.evols.getLast? = some { cancel := some c, renew := none })
    (hclose : c.is_close = true) :
    Identity.renewE s ev = (.error "Identity closed permanently!", s) := by
  obtain ⟨card, hcard⟩ := Option.isSome_iff_exists.mp (List.getLast?_isSome.mpr hc)
  have hstep : Identity.renewStep s card ev = .error "Identity closed permanently!" := by
    unfold Identity.renewStep
    simp [hf, hlast, hclose]
  unfold Identity.renewE
  simp only [hcard, hstep]

theorem closed_fix (s : Identity) (h : Closed s) (op : IdOp) : applyOp s op = s := by
  obtain ⟨hf, c, hlast, hclose⟩ := h
  cases op with
  | saveOp r =>
    rcases saveR_cases s r with ⟨h2, _⟩ | ⟨he, _⟩
    · exact h2
    · rw [he] at hf; cases hf
  | cancelOp ev =>
    rcases cancelE_cases s ev with ⟨h2, _⟩ | ⟨he, _⟩
    · exact h2
    · rw [he] at hf; cases hf
  | renewOp ev =>
    rcases renewE_cases s ev with ⟨h2, _⟩ | ⟨he, _⟩ |
      ⟨_, _, current, cancel, hl, hcan, hren, hcl, _⟩
    · exact h2
    · rw [he] at hf; cases hf
    · rw [hl] at hlast
      injection hlast with h3
      subst h3
      simp_all
  | evolveOp card =>
    rcases evolveE_cases s card with ⟨h2, _⟩ | ⟨_, _, ⟨current, renew, hl, hre, _⟩, _⟩
    · exact h2
    · rw [hl] at hlast
      injection hlast with h3
      subst h3
      simp at hre

theorem closed_fixOps (s : Identity) (h : Closed s) (ops : List IdOp) :
    applyOps s ops = s := by
  induction ops with
  | nil => rfl
  | cons op rest ih =>
    show applyOps (applyOp s op) rest = s
    rw [closed_fix s h op]
    exact ih

/-- C6: from a reachable, permanently closed identity, every sequence of further
operations leaves the state unchanged and every renew attempt reports permanent closure
with the identity still disabled; and a renew from any disabled identity succeeds only
when the last `evols` entry is an unclosed pending cancel that `ev.prev` references and
whose key verifies the renew's signature. -/
theorem C6_permanent_closure :
    (∀ s, Reachable s → Closed s → ∀ ops ev,
      applyOps s ops = s ∧
      (Identity.renewE (applyOps s ops) ev).1 = .error "Identity closed permanently!" ∧
      (Identity.renewE (applyOps s ops) ev).2.enabled = false) ∧
    (∀ s ev, s.enabled = false → (Identity.renewE s ev).1 = .ok () →
      ∃ e c, s.evols.getLast? = some e ∧ e.cancel = some c ∧ e.renew = none ∧
        c.is_close = false ∧ ev.prev = c.sig ∧ ev.verify c.key = true) := by
  constructor
  · intro s hre hcl ops ev
    have hfix := closed_fixOps s hcl ops
    obtain ⟨hf, c, hlast, hclose⟩ := hcl
    have hc : s.cards ≠ [] := (reachable_inv s hre).1
    have hren := closed_renewE s ev hc hf c hlast hclose
    rw [hfix, hren]
    exact ⟨rfl, rfl, hf⟩
  · intro s ev hf hok
    rcases renewE_cases s ev with ⟨_, e, herr⟩ | ⟨he, _, _⟩ |
      ⟨_, _, current, cancel, hl, hcan, hren, hcl, hsig, hv, _⟩
    · rw [herr] at hok; cases hok
    · rw [he] at hf; cases hf
    · exact ⟨current, cancel, hl, hcan, hren, hcl, hsig.symm, hv⟩

/-- Witness for C6: the concretely closed identity is fixed under any further operations
and rejects a concrete renew with the permanent-closure error. -/
theorem C6_witness :
    applyOps identityClosed [] = identityClosed ∧
    (Identity.renewE (applyOps identityClosed []) renewAttempt).1 =
      .error "Identity closed permanently!" ∧
    (Identity.renewE (applyOps identityClosed []) renewAttempt).2.enabled = false :=
  C6_permanent_closure.1 identityClosed
    (Reachable.cancelStep identity0 closeCancel
      (Reachable.genesis genesisCard identity0 rfl))
    ⟨rfl, closeCancel, rfl, rfl⟩ [] renewAttempt

theorem dbGet_dbSet_self (db : List (Str × List Registry)) (id : Str)
    (regs : List Registry) : dbGet (dbSet db id regs) id = some regs := by
  induction db with
  | nil => simp [dbGet, dbSet]
  | cons kv rest ih =>
    by_cases h : kv.1 = id
    · simp [dbGet, dbSet, h]
    · simp [dbGet, dbSet, h, ih]

theorem dbGet_dbSet_ne (db : List (Str × List Registry)) (id id2 : Str)
    (regs : List Registry) (h : id2 ≠ id) :
    dbGet (dbSet db id regs) id2 = dbGet db id2 := by
  induction db with
  | nil => simp [dbGet, dbSet, h, Ne.symm h]
  | cons kv rest ih =>
    by_cases hk : kv.1 = id
    · simp [dbGet, dbSet, hk, Ne.symm h]
    · simp [dbGet, dbSet, hk, ih]

/-- C7: `Identity::save(r)` succeeds exactly when the identity is enabled,
`r.key_index = |cards| − 1`, `r` verifies under the last card's key, and either the
existing chain for `r.id` ends in an entry matching `r.prev`/`r.typ`, or there is no
chain and `r.prev` is the identity's `prev()`; on success only the store changes:
the entry is appended under `r.id` and all other chains are untouched. -/
theorem C7_save_characterization (s : Identity) (r : Registry) :
    ((Identity.saveR s r).1 = .ok () ↔
      (s.enabled = true ∧ r.key_index = s.cards.length - 1 ∧
        (∃ card, s.cards.getLast? = some card ∧ r.verify card.key = true) ∧
        ((∃ reg current, dbGet s.db r.id = some reg ∧ reg.getLast? = some current ∧
            r.prev = current.sig ∧ r.typ = current.typ) ∨
          (dbGet s.db r.id = none ∧ Identity.prevSig s = .ok r.prev)))) ∧
    ((Identity.saveR s r).1 = .ok () →
      ((Identity.saveR s r).2.udi = s.udi ∧ (Identity.saveR s r).2.cards = s.cards ∧
        (Identity.saveR s r).2.evols = s.evols ∧
        (Identity.saveR s r).2.enabled = s.enabled) ∧
      (∀ id, id ≠ r.id → dbGet (Identity.saveR s r).2.db id = dbGet s.db id) ∧
      ((dbGet s.db r.id = none ∧ dbGet (Identity.saveR s r).2.db r.id = some [r]) ∨
       (∃ reg, dbGet s.db r.id = some reg ∧
          dbGet (Identity.saveR s r).2.db r.id = some (reg ++ [r])))) := by
  constructor
  · constructor
    · intro hok
      rcases saveR_cases s r with ⟨_, e, herr⟩ | ⟨he, _, card, hcard, hki, hv, hbr⟩
      · rw [herr] at hok; cases hok
      · refine ⟨he, hki.symm, ⟨card, hcard, hv⟩, ?_⟩
        rcases hbr with ⟨hdb, hsig, _⟩ | ⟨reg, current, hdb, hlastr, hsig, htyp, _⟩
        · right
          refine ⟨hdb, ?_⟩
          unfold Identity.prevSig
          simp [he, hcard, hsig]
        · left; exact ⟨reg, current, hdb, hlastr, hsig.symm, htyp⟩
    · rintro ⟨he, hki, ⟨card, hcard, hv⟩, hchain⟩
      have hki2 : s.cards.length - 1 = r.key_index := hki.symm
      unfold Identity.saveR
      rcases hchain with ⟨reg, current, hdb, hlastr, hprev, htyp⟩ | ⟨hdb, hprev⟩
      · simp [he, hcard, hki2, hv, hdb, hlastr, hprev.symm, htyp]
      · have hps : card.sig = r.prev := by
          unfold Identity.prevSig at hprev
          simp [he, hcard] at hprev
          exact hprev
        simp [he, hcard, hki2, hv, hdb, hps]
  · intro hok
    rcases saveR_cases s r with ⟨_, e, herr⟩ | ⟨he, _, card, hcard, hki, hv, hbr⟩
    · rw [herr] at hok; cases hok
    · rcases hbr with ⟨hdb, hsig, h2⟩ | ⟨reg, current, hdb, hlastr, hsig, htyp, h2⟩
      · rw [h2]
        refine ⟨⟨rfl, rfl, rfl, rfl⟩, ?_, Or.inl ⟨hdb, ?_⟩⟩
        · intro id hid
          exact dbGet_dbSet_ne s.db r.id id [r] hid
        · exact dbGet_dbSet_self s.db r.id [r]
      · rw [h2]
        refine ⟨⟨rfl, rfl, rfl, rfl⟩, ?_, Or.inr ⟨reg, hdb, ?_⟩⟩
        · intro id hid
          exact dbGet_dbSet_ne s.db r.id id (reg ++ [r]) hid
        · exact dbGet_dbSet_self s.db r.id (reg ++ [r])

def registry0 : Registry :=
  { id := Str.raw "idp.io", typ := Str.raw "test", oper := OType.SET, info := [],
    prev := genesisCard.sig,
    sig := Sig.signed 0
      (SigData.registryData (Str.raw "idp.io") (Str.raw "test") OType.SET []
        genesisCard.sig),
    key_index := 0 }

/-- Witness for C7: a concrete well-formed first registry entry is accepted. -/
theorem C7_witness : (Identity.saveR identity0 registry0).1 = .ok () :=
  (C7_save_characterization identity0 registry0).1.mpr
    ⟨rfl, rfl, ⟨genesisCard, rfl, rfl⟩, Or.inr ⟨rfl, rfl⟩⟩

/-- Spec-side transcription of claim C8 about `Chain::check` (the chain listed
newest-first): the newest stream verifies fully under the current key; a stream carrying
an `ExtRenew` must have an inline master key that verifies the renew, whose commit is a
group of the next-older stream and whose `prev` is that stream's tip, and the key
advances to `ExtRenew.key`; the walk succeeds iff the stream with no `ExtRenew` is
reached exactly at the oldest position. -/
def chainCheckSpec : List Stream → Nat → Prop
  | [], _ => False
  | [st], key => st.verify key = true ∧ st.blocks.all (fun b => b.verify key) = true ∧
      st.renew = OptExtRenew.noneE
  | st :: next :: rest, key =>
      st.verify key = true ∧ st.blocks.all (fun b => b.verify key) = true ∧
      ∃ ext mkey, st.renew = OptExtRenew.someE ext ∧ ext.renew.key = some mkey ∧
        ext.renew.verify mkey = true ∧ (next.groups.find (commit mkey)).isSome = true ∧
        ext.renew.prev = next.prevS ∧ chainCheckSpec (next :: rest) ext.key

theorem verify_stream_ok (st : Stream) (k : Nat) :
    st.verify_stream k = .ok () ↔
      (st.verify k = true ∧ st.blocks.all (fun b => b.verify k) = true) := by
  unfold Stream.verify_stream
  cases hv : st.verify k <;> cases hb : st.blocks.all (fun b => b.verify k) <;>
    simp [hv, hb]

theorem checkLoop_none_iff (l : List Stream) (mc : Option Str) (pv : Option Sig) :
    checkLoop l mc pv none = .ok () ↔ l = [] := by
  cases l <;> simp [checkLoop]

theorem checkLoop_iff (l : List Stream) : ∀ (mc : Option Str) (pv : Option Sig) (k : Nat),
    checkLoop l mc pv (some k) = .ok () ↔
      ((∀ c, mc = some c → ∃ st, l.head? = some st ∧ (st.groups.find c).isSome = true) ∧
       (∀ p, pv = some p → ∃ st, l.head? = some st ∧ p = st.prevS) ∧
       chainCheckSpec l k) := by
  induction l with
  | nil =>
    intro mc pv k
    simp [checkLoop, chainCheckSpec]
  | cons st rest ih =>
    intro mc pv k
    constructor
    · intro h
      simp only [checkLoop] at h
      split at h
      · cases h
      · split at h
        · cases h
        · rename_i hgr hpr
          rw [Bool.not_eq_true', Bool.not_eq_false] at hgr hpr
          have hgr2 : ∀ c, mc = some c → ∃ st2, (st :: rest).head? = some st2 ∧
              (st2.groups.find c).isSome = true := by
            intro c hmc
            rw [hmc] at hgr
            exact ⟨st, rfl, by simpa [headGroupOk] using hgr⟩
          have hpr2 : ∀ p, pv = some p → ∃ st2, (st :: rest).head? = some st2 ∧
              p = st2.prevS := by
            intro p hpv
            rw [hpv] at hpr
            simp only [headPrevOk, beq_iff_eq] at hgr hpr
            exact ⟨st, rfl, hpr⟩
          split at h
          · cases h
          · rename_i u hvs
            obtain ⟨hv, hb⟩ := (verify_stream_ok st k).mp (by rw [hvs])
            split at h
            · rename_i hre
              have hrest : rest = [] := (checkLoop_none_iff rest mc pv).mp h
              subst hrest
              exact ⟨hgr2, hpr2, hv, hb, hre⟩
            · rename_i ext hre
              split at h
              · cases h
              · rename_i mkey hkey
                split at h
                · cases h
                · rename_i hrv
                  rw [Bool.not_eq_true', Bool.not_eq_false] at hrv
                  obtain ⟨ih1, ih2, ih3⟩ := (ih _ _ _).mp h
                  cases rest with
                  | nil => cases ih3
                  | cons next rest2 =>
                    obtain ⟨st2, hst2, hfind⟩ := ih1 (commit mkey) rfl
                    obtain ⟨st3, hst3, hprev⟩ := ih2 ext.renew.prev rfl
                    cases hst2
                    cases hst3
                    exact ⟨hgr2, hpr2, hv, hb,
                      ext, mkey, hre, hkey, hrv, hfind, hprev, ih3⟩
    · rintro ⟨h1, h2, h3⟩
      have hgr : headGroupOk mc st = true := by
        cases mc with
        | none => rfl
        | some c =>
          obtain ⟨st2, hst2, hfind⟩ := h1 c rfl
          cases hst2
          simpa [headGroupOk] using hfind
      have hpr : headPrevOk pv st = true := by
        cases pv with
        | none => rfl
        | some p =>
          obtain ⟨st2, hst2, hprev⟩ := h2 p rfl
          cases hst2
          simpa [headPrevOk, beq_iff_eq] using hprev
      cases rest with
      | nil =>
        obtain ⟨hv, hb, hre⟩ := h3
        have hvs := (verify_stream_ok st k).mpr ⟨hv, hb⟩
        conv_lhs => rw [checkLoop]
        simp only [hgr, hpr, hvs, hre, Bool.not_true, Bool.false_eq_true, if_false]
        exact (checkLoop_none_iff [] mc pv).mpr rfl
      | cons next rest2 =>
        obtain ⟨hv, hb, ext, mkey, hre, hkey, hrv, hfind, hprev, hspec⟩ := h3
        have hvs := (verify_stream_ok st k).mpr ⟨hv, hb⟩
        conv_lhs => rw [checkLoop]
        simp only [hgr, hpr, hvs, hre, hkey, hrv, Bool.not_true, Bool.false_eq_true,
          if_false]
        exact (ih _ _ _).mpr
          ⟨fun c hc => by injection hc with hc; subst hc; exact ⟨next, rfl, hfind⟩,
           fun p hp => by injection hp with hp; subst hp; exact ⟨next, rfl, hprev⟩,
           hspec⟩

/-- C8: `Chain::check(pk)` returns Ok exactly when the reverse walk of the chain
described by the claim succeeds: each stream verifies under the current key, each
`ExtRenew` is verified under its inline master key whose commit must be a group of the
next-older stream and whose `prev` must be that stream's tip, the key advances to
`ExtRenew.key`, and the stream with no `ExtRenew` is reached exactly when the verifying
key is exhausted. -/
theorem C8_check_spec_equiv (c : Chain) (key : Nat) :
    Chain.checkC c key = .ok () ↔ chainCheckSpec c.chain.reverse key := by
  unfold Chain.checkC
  rw [checkLoop_iff]
  constructor
  · rintro ⟨_, _, h⟩
    exact h
  · intro h
    refine ⟨?_, ?_, h⟩ <;> intro x hx <;> cases hx

end Raiap
